import Mathlib

/-!
Verification of the percentage-normalization core of `simple-lang-stats`
(`src/language-stats.ts`).

The function `calculateLanguagePercentages` is a pure function over
JavaScript numbers.  Finite double values are idealized as exact rationals
(the code re-rounds every intermediate quantity of the adjustment pass to
two decimals via `toFixed(2)`, so the decimal-level behaviour is captured
exactly); the IEEE special values `NaN`, `Infinity` and `-Infinity`, which
arise from the divisions `size / totalSize` at `totalSize = 0`, are
modelled explicitly by the `JsNum` type.

An input mapping (a JavaScript object) is modelled as the list of its
entries in insertion order, which is what `Object.entries` yields for the
non-numeric string keys used for language names.  Of the per-language
record `{name, color, size, count}` only the key and `size` are consumed
by the normalizer, so entries are `String × ℚ` pairs.
-/

namespace SimpleLangStats

/-- A JavaScript `number`: a finite value (idealized as an exact rational)
or one of the IEEE special values. -/
inductive JsNum where
  | fin (q : ℚ)
  | nan
  | inf
  | ninf
deriving DecidableEq

open JsNum

/-- JavaScript unary minus on numbers. -/
def jsNeg : JsNum → JsNum
  | fin q => fin (-q)
  | nan => nan
  | inf => ninf
  | ninf => inf

/-- JavaScript `+` on numbers. -/
def jsAdd : JsNum → JsNum → JsNum
  | nan, _ => nan
  | _, nan => nan
  | fin a, fin b => fin (a + b)
  | inf, ninf => nan
  | ninf, inf => nan
  | inf, _ => inf
  | _, inf => inf
  | ninf, _ => ninf
  | _, ninf => ninf

/-- JavaScript `-` on numbers. -/
def jsSub (a b : JsNum) : JsNum := jsAdd a (jsNeg b)

/-- JavaScript `*` on numbers. -/
def jsMul : JsNum → JsNum → JsNum
  | nan, _ => nan
  | _, nan => nan
  | fin a, fin b => fin (a * b)
  | inf, fin b => if 0 < b then inf else if b < 0 then ninf else nan
  | fin a, inf => if 0 < a then inf else if a < 0 then ninf else nan
  | ninf, fin b => if 0 < b then ninf else if b < 0 then inf else nan
  | fin a, ninf => if 0 < a then ninf else if a < 0 then inf else nan
  | inf, inf => inf
  | ninf, ninf => inf
  | inf, ninf => ninf
  | ninf, inf => ninf

/-- JavaScript `/` on two finite numbers (the only division the source
performs is `data.size / totalSize` on caller-supplied finite values):
division by zero produces `NaN` or a signed infinity. -/
def jsDiv (a b : ℚ) : JsNum :=
  if b = 0 then (if a = 0 then nan else if 0 < a then inf else ninf) else fin (a / b)

/-- JavaScript `>` on numbers: any comparison with `NaN` is false. -/
def jsGt : JsNum → JsNum → Bool
  | nan, _ => false
  | _, nan => false
  | fin a, fin b => decide (b < a)
  | inf, inf => false
  | ninf, ninf => false
  | inf, _ => true
  | _, inf => false
  | ninf, _ => false
  | _, ninf => true

/-- JavaScript `<` on numbers. -/
def jsLt (a b : JsNum) : Bool := jsGt b a

/-- JavaScript `Math.abs`. -/
def jsAbs : JsNum → JsNum
  | fin q => fin (if q < 0 then -q else q)
  | nan => nan
  | inf => inf
  | ninf => inf

/-- JavaScript `Math.sign`. -/
def jsSign : JsNum → JsNum
  | fin q => fin (if 0 < q then 1 else if q < 0 then -1 else 0)
  | nan => nan
  | inf => fin 1
  | ninf => fin (-1)

/-- Rounding of a finite value to two decimal places: the exact-value
semantics of `parseFloat(x.toFixed(2))` (nearest, ties up). -/
def rnd2 (q : ℚ) : ℚ := ((round (q * 100) : ℤ) : ℚ) / 100

/-- `parseFloat(x.toFixed(2))` on a JavaScript number: special values are
formatted and re-parsed unchanged. -/
def round2 : JsNum → JsNum
  | fin q => fin (rnd2 q)
  | nan => nan
  | inf => inf
  | ninf => ninf

/-- The finite value of a `JsNum` (junk value `0` on the special values);
used only to state theorems about sums of finite results. -/
def jsToQ : JsNum → ℚ
  | fin q => q
  | _ => 0

/-- Insert `x` into `l`, placing it before the first element `h` with
`before x h` and after every element it does not strictly precede. -/
def insertB (before : α → α → Bool) (x : α) : List α → List α
  | [] => [x]
  | h :: t => if before x h then x :: h :: t else h :: insertB before x t

/-- Stable sort, processing elements left to right: models JavaScript's
(ES2019+) stable `Array.prototype.sort` with a comparator `c`, where
`before x h` stands for `c(x, h) < 0`.  An element never moves past one it
compares equal (or incomparable) to, so ties keep their original order. -/
def insSortBy (before : α → α → Bool) (l : List α) : List α :=
  l.foldl (fun acc x => insertB before x acc) []

/-- The element of `rawPercentages`: `{language, size, percentage}`. -/
structure RawItem where
  language : String
  size : ℚ
  percentage : JsNum
deriving DecidableEq

/-- The element of `roundedData`: the raw item together with its rounded
value and rounding remainder. -/
structure Item where
  language : String
  size : ℚ
  percentage : JsNum
  rounded : JsNum
  remainder : JsNum
deriving DecidableEq

/-- Comparator of `entries`: `([, a], [, b]) => b.size - a.size`, i.e.
`x` precedes `h` exactly when `x` has the strictly larger size. -/
def bySizeDesc (x h : String × ℚ) : Bool := decide (h.2 < x.2)

/-- `const entries = Object.entries(languageStats).sort(([, a], [, b]) => b.size - a.size)`. -/
def entriesSorted (stats : List (String × ℚ)) : List (String × ℚ) :=
  insSortBy bySizeDesc stats

/-- `const rawPercentages = entries.map(...)` with
`percentage: (data.size / totalSize) * 100`. -/
def rawPercentages (stats : List (String × ℚ)) (totalSize : ℚ) : List RawItem :=
  (entriesSorted stats).map fun e => ⟨e.1, e.2, jsMul (jsDiv e.2 totalSize) (fin 100)⟩

/-- `const roundedData = rawPercentages.map(...)` with
`rounded: parseFloat(item.percentage.toFixed(2))` and
`remainder: item.percentage - parseFloat(item.percentage.toFixed(2))`. -/
def roundedData (stats : List (String × ℚ)) (totalSize : ℚ) : List Item :=
  (rawPercentages stats totalSize).map fun r =>
    ⟨r.language, r.size, r.percentage, round2 r.percentage,
      jsSub r.percentage (round2 r.percentage)⟩

/-- `const sumRounded = roundedData.reduce((sum, item) => sum + item.rounded, 0)`. -/
def sumRounded (stats : List (String × ℚ)) (totalSize : ℚ) : JsNum :=
  (roundedData stats totalSize).foldl (fun s it => jsAdd s it.rounded) (fin 0)

/-- `const difference = parseFloat((100 - sumRounded).toFixed(2))`. -/
def difference (stats : List (String × ℚ)) (totalSize : ℚ) : JsNum :=
  round2 (jsSub (fin 100) (sumRounded stats totalSize))

/-- Comparator of the adjustment pass: `(a, b) => b.remainder - a.remainder`
(descending remainder).  The items are carried together with their position
in `roundedData`, which models that the code sorts a copy
`[...roundedData]` holding references to the same objects. -/
def byRemDesc (x h : ℕ × Item) : Bool :=
  jsLt (jsSub h.2.remainder x.2.remainder) (fin 0)

/-- `const sortedByRemainder = [...roundedData].sort((a, b) => b.remainder - a.remainder)`. -/
def sortedByRemainder (stats : List (String × ℚ)) (totalSize : ℚ) : List (ℕ × Item) :=
  insSortBy byRemDesc (roundedData stats totalSize).enum

/-- The `for (const item of sortedByRemainder)` loop: before each item it
checks `Math.abs(remainingDifference) < 0.001` and breaks, otherwise it
sets `item.rounded = parseFloat((item.rounded + adjustment).toFixed(2))`
with `adjustment = Math.sign(remainingDifference) * 0.01` and updates
`remainingDifference = parseFloat((remainingDifference - adjustment).toFixed(2))`.
(The variable `const increment = difference > 0 ? 0.01 : -0.01` of the
source is never read, so it has no counterpart here.) -/
def adjustLoop : List (ℕ × Item) → JsNum → List (ℕ × Item)
  | [], _ => []
  | x :: rest, rem =>
    if jsLt (jsAbs rem) (fin (1 / 1000)) then x :: rest
    else
      (x.1, { x.2 with rounded := round2 (jsAdd x.2.rounded (jsMul (jsSign rem) (fin (1 / 100)))) }) ::
        adjustLoop rest (round2 (jsSub rem (jsMul (jsSign rem) (fin (1 / 100)))))

/-- Ascending original position; used to read the mutated `roundedData`
back in its own order. -/
def byIdxAsc (x h : ℕ × Item) : Bool := decide (x.1 < h.1)

/-- The contents of `roundedData` after the `if (Math.abs(difference) > 0.01)`
adjustment block.  The code mutates the objects shared between
`sortedByRemainder` and `roundedData` in place; here the loop rewrites the
items of the remainder-sorted copy and the result is read back in
`roundedData` order by sorting on the carried original position. -/
def adjustedData (stats : List (String × ℚ)) (totalSize : ℚ) : List Item :=
  if jsGt (jsAbs (difference stats totalSize)) (fin (1 / 100)) then
    (insSortBy byIdxAsc
        (adjustLoop (sortedByRemainder stats totalSize) (difference stats totalSize))).map
      Prod.snd
  else roundedData stats totalSize

/-- `calculateLanguagePercentages` (src/language-stats.ts, lines 43-88):
the final `roundedData.filter(item => item.rounded > 0).map(...)` keeping
`{language, size, percentage: rounded}`. -/
def calculateLanguagePercentages (stats : List (String × ℚ)) (totalSize : ℚ) :
    List (String × ℚ × JsNum) :=
  ((adjustedData stats totalSize).filter fun it => jsGt it.rounded (fin 0)).map
    fun it => (it.language, it.size, it.rounded)

/-- The sum of the returned percentages (finite parts), used to state the
sum-invariant claims. -/
def percentageSum (stats : List (String × ℚ)) (totalSize : ℚ) : ℚ :=
  ((calculateLanguagePercentages stats totalSize).map fun e => jsToQ e.2.2).sum

/-- Modelled from the spec: "ceiling-to-2-decimals: `ceil(rawPercentage * 100) / 100`"
(§4.1 step 4).  Named for comparison against the source's rounding; the
source itself never takes a ceiling. -/
def specCeil2 (q : ℚ) : ℚ := ((⌈q * 100⌉ : ℤ) : ℚ) / 100

/-- The weighting pre-step of `fetchTopLanguages`
(src/language-stats.ts, lines 203-220): each language's size is replaced by
`Math.pow(lang.size, sizeWeight) * Math.pow(lang.count, countWeight)` and
entries whose weighted size is not `> 0` are then filtered out.  Entries
are `(name, size, count)`; the exponents are modelled at natural-number
values, which covers the source's defaults (`sizeWeight = 1`,
`countWeight = 0`) and every configuration the claims mention. -/
def applyWeights (stats : List (String × ℚ × ℕ)) (sizeWeight countWeight : ℕ) :
    List (String × ℚ) :=
  (stats.map fun e => (e.1, e.2.1 ^ sizeWeight * ((e.2.2 : ℚ)) ^ countWeight)).filter
    fun x => decide (0 < x.2)

/-! ### Basic facts about the JavaScript number operations -/

@[simp] theorem jsAdd_fin_fin (a b : ℚ) : jsAdd (fin a) (fin b) = fin (a + b) := rfl

@[simp] theorem jsSub_fin_fin (a b : ℚ) : jsSub (fin a) (fin b) = fin (a - b) := by
  simp [jsSub, jsNeg, jsAdd, sub_eq_add_neg]

@[simp] theorem jsMul_fin_fin (a b : ℚ) : jsMul (fin a) (fin b) = fin (a * b) := rfl

@[simp] theorem round2_fin (q : ℚ) : round2 (fin q) = fin (rnd2 q) := rfl

@[simp] theorem jsGt_fin_fin (a b : ℚ) : jsGt (fin a) (fin b) = decide (b < a) := rfl

@[simp] theorem jsLt_fin_fin (a b : ℚ) : jsLt (fin a) (fin b) = decide (a < b) := rfl

@[simp] theorem jsAbs_fin (q : ℚ) : jsAbs (fin q) = fin |q| := by
  by_cases h : q < 0
  · simp [jsAbs, h, abs_of_neg h]
  · simp [jsAbs, h, abs_of_nonneg (not_lt.mp h)]

@[simp] theorem jsToQ_fin (q : ℚ) : jsToQ (fin q) = q := rfl

theorem jsDiv_of_ne_zero (a : ℚ) {b : ℚ} (hb : b ≠ 0) : jsDiv a b = fin (a / b) := by
  simp [jsDiv, hb]

theorem rnd2_intCast_div (k : ℤ) : rnd2 ((k : ℚ) / 100) = (k : ℚ) / 100 := by
  have h : ((k : ℚ) / 100) * 100 = (k : ℚ) := by
    field_simp
  rw [rnd2, h, round_intCast]

theorem rnd2_eq_int_div (q : ℚ) : ∃ m : ℤ, rnd2 q = (m : ℚ) / 100 :=
  ⟨round (q * 100), rfl⟩

theorem abs_rnd2_sub (q : ℚ) : |rnd2 q - q| ≤ 1 / 200 := by
  have h := abs_sub_round (q * 100)
  rw [rnd2]
  have h2 : ((round (q * 100) : ℤ) : ℚ) / 100 - q = -((q * 100 - round (q * 100)) / 100) := by
    ring
  rw [h2, abs_neg, abs_div]
  rw [show |(100 : ℚ)| = 100 by norm_num]
  linarith [h]

/-! ### The stable insertion sort -/

theorem insertB_perm (before : α → α → Bool) (x : α) (l : List α) :
    (insertB before x l).Perm (x :: l) := by
  induction l with
  | nil => exact List.Perm.refl _
  | cons h t ih =>
      by_cases hx : before x h
      · simp [insertB, hx]
      · simp only [insertB, hx, if_false]
        exact (ih.cons h).trans (List.Perm.swap x h t)

theorem mem_insertB {before : α → α → Bool} {x y : α} {l : List α} :
    y ∈ insertB before x l ↔ y = x ∨ y ∈ l := by
  rw [(insertB_perm before x l).mem_iff, List.mem_cons]

theorem foldl_insertB_perm (before : α → α → Bool) (l acc : List α) :
    (l.foldl (fun a x => insertB before x a) acc).Perm (acc ++ l) := by
  induction l generalizing acc with
  | nil => simp
  | cons h t ih =>
      simp only [List.foldl_cons]
      refine (ih (insertB before h acc)).trans ?_
      refine (((insertB_perm before h acc).append_right t).trans ?_)
      exact List.perm_middle.symm

theorem insSortBy_perm (before : α → α → Bool) (l : List α) :
    (insSortBy before l).Perm l := by
  simpa [insSortBy] using foldl_insertB_perm before l []

theorem insertB_pairwise {before : α → α → Bool}
    (hA : ∀ a b, before a b = true → before b a = false)
    (hT : ∀ a b c, before a b = true → before b c = true → before a c = true)
    {x : α} {l : List α} (hl : l.Pairwise fun a b => before b a = false) :
    (insertB before x l).Pairwise fun a b => before b a = false := by
  induction l with
  | nil => simp [insertB]
  | cons h t ih =>
      rw [List.pairwise_cons] at hl
      obtain ⟨hh, ht⟩ := hl
      by_cases hx : before x h
      · simp only [insertB, hx, if_true]
        refine List.Pairwise.cons ?_ (List.Pairwise.cons hh ht)
        intro y hy
        rcases List.mem_cons.mp hy with rfl | hyt
        · exact hA x y hx
        · by_contra hcon
          have hyx : before y x = true := by
            revert hcon
            cases before y x <;> simp
          have : before y h = true := hT y x h hyx hx
          rw [hh y hyt] at this
          exact Bool.false_ne_true this
      · simp only [insertB, hx, if_false]
        refine List.Pairwise.cons ?_ (ih ht)
        intro y hy
        rcases mem_insertB.mp hy with rfl | hyt
        · exact Bool.eq_false_iff.mpr hx
        · exact hh y hyt

theorem foldl_insertB_pairwise {before : α → α → Bool}
    (hA : ∀ a b, before a b = true → before b a = false)
    (hT : ∀ a b c, before a b = true → before b c = true → before a c = true)
    (l : List α) :
    ∀ acc : List α, (acc.Pairwise fun a b => before b a = false) →
      (l.foldl (fun a x => insertB before x a) acc).Pairwise fun a b => before b a = false := by
  induction l with
  | nil => intro acc hacc; simpa using hacc
  | cons h t ih =>
      intro acc hacc
      simp only [List.foldl_cons]
      exact ih _ (insertB_pairwise hA hT hacc)

theorem insSortBy_pairwise {before : α → α → Bool}
    (hA : ∀ a b, before a b = true → before b a = false)
    (hT : ∀ a b c, before a b = true → before b c = true → before a c = true)
    (l : List α) :
    (insSortBy before l).Pairwise fun a b => before b a = false :=
  foldl_insertB_pairwise hA hT l [] (List.Pairwise.nil)

theorem insertB_filter_key {α : Type} (key : α → ℚ) (s : ℚ) (x : α) (l : List α)
    (hl : l.Pairwise fun a b => key b ≤ key a) :
    (insertB (fun u v => decide (key v < key u)) x l).filter (fun e => decide (key e = s)) =
      l.filter (fun e => decide (key e = s)) ++ if key x = s then [x] else [] := by
  induction l with
  | nil =>
      by_cases hxs : key x = s <;> simp [insertB, List.filter_cons, hxs]
  | cons h t ih =>
      rw [List.pairwise_cons] at hl
      obtain ⟨hh, ht⟩ := hl
      by_cases hx : key h < key x
      · simp only [insertB, decide_eq_true_eq, hx, if_true]
        by_cases hxs : key x = s
        · have hnil : (h :: t).filter (fun e => decide (key e = s)) = [] := by
            rw [List.filter_eq_nil_iff]
            intro y hy
            have hys : key y < key x := by
              rcases List.mem_cons.mp hy with rfl | hyt
              · exact hx
              · exact lt_of_le_of_lt (hh y hyt) hx
            simp only [decide_eq_true_eq]
            intro hcon
            rw [hcon, hxs] at hys
            exact lt_irrefl s hys
          rw [List.filter_cons_of_pos (by simp [hxs]), hnil, if_pos hxs]
          simp
        · rw [List.filter_cons_of_neg (by simp [hxs]), if_neg hxs, List.append_nil]
      · simp only [insertB, decide_eq_true_eq, hx, if_false]
        by_cases hhs : key h = s
        · rw [List.filter_cons_of_pos (by simp [hhs]), List.filter_cons_of_pos (by simp [hhs]),
            ih ht, List.cons_append]
        · rw [List.filter_cons_of_neg (by simp [hhs]), List.filter_cons_of_neg (by simp [hhs]),
            ih ht]

theorem key_sort_pairwise {α : Type} (key : α → ℚ) (l : List α) :
    (insSortBy (fun u v => decide (key v < key u)) l).Pairwise fun a b => key b ≤ key a := by
  have h := @insSortBy_pairwise α (fun u v => decide (key v < key u))
    (fun a b hab => by
      simp only [decide_eq_true_eq] at hab
      simpa using not_lt_of_gt hab)
    (fun a b c hab hbc => by
      simp only [decide_eq_true_eq] at *
      exact lt_trans hbc hab) l
  exact h.imp fun hab => by simpa using hab

theorem foldl_insertB_filter_key {α : Type} (key : α → ℚ) (s : ℚ) (l : List α) :
    ∀ acc : List α, (acc.Pairwise fun a b => key b ≤ key a) →
      (l.foldl (fun a x => insertB (fun u v => decide (key v < key u)) x a) acc).filter
          (fun e => decide (key e = s)) =
        acc.filter (fun e => decide (key e = s)) ++ l.filter (fun e => decide (key e = s)) := by
  induction l with
  | nil => intro acc hacc; simp
  | cons h t ih =>
      intro acc hacc
      have hacc' : (insertB (fun u v => decide (key v < key u)) h acc).Pairwise
          fun a b => key b ≤ key a := by
        have := @insertB_pairwise α (fun u v => decide (key v < key u))
          (fun a b hab => by
            simp only [decide_eq_true_eq] at hab
            simpa using not_lt_of_gt hab)
          (fun a b c hab hbc => by
            simp only [decide_eq_true_eq] at *
            exact lt_trans hbc hab)
          h acc (hacc.imp fun hab => by simpa using hab)
        exact this.imp fun hab => by simpa using hab
      simp only [List.foldl_cons]
      rw [ih _ hacc', insertB_filter_key key s h acc hacc, List.filter_cons]
      by_cases hhs : key h = s <;> simp [hhs, List.append_assoc]

theorem insSortBy_filter_key {α : Type} (key : α → ℚ) (s : ℚ) (l : List α) :
    (insSortBy (fun u v => decide (key v < key u)) l).filter (fun e => decide (key e = s)) =
      l.filter (fun e => decide (key e = s)) := by
  simpa [insSortBy] using foldl_insertB_filter_key key s l [] List.Pairwise.nil

/-! ### The two JavaScript comparators are strict orders -/

theorem jsLtSub_asymm (a b : JsNum) :
    jsLt (jsSub b a) (fin 0) = true → jsLt (jsSub a b) (fin 0) = false := by
  cases a <;> cases b <;> simp [jsSub, jsAdd, jsNeg, jsLt, jsGt]
  all_goals intro h
  all_goals linarith

theorem jsLtSub_trans (a b c : JsNum) :
    jsLt (jsSub b a) (fin 0) = true → jsLt (jsSub c b) (fin 0) = true →
      jsLt (jsSub c a) (fin 0) = true := by
  cases a <;> cases b <;> cases c <;> simp [jsSub, jsAdd, jsNeg, jsLt, jsGt]
  all_goals intro h1 h2
  all_goals linarith

theorem byRemDesc_asymm (a b : ℕ × Item) :
    byRemDesc a b = true → byRemDesc b a = false :=
  jsLtSub_asymm a.2.remainder b.2.remainder

theorem byRemDesc_trans (a b c : ℕ × Item) :
    byRemDesc a b = true → byRemDesc b c = true → byRemDesc a c = true :=
  jsLtSub_trans a.2.remainder b.2.remainder c.2.remainder

theorem byIdxAsc_asymm (a b : ℕ × Item) : byIdxAsc a b = true → byIdxAsc b a = false := by
  simp only [byIdxAsc, decide_eq_true_eq, decide_eq_false_iff_not]
  omega

theorem byIdxAsc_trans (a b c : ℕ × Item) :
    byIdxAsc a b = true → byIdxAsc b c = true → byIdxAsc a c = true := by
  simp only [byIdxAsc, decide_eq_true_eq]
  omega

/-! ### The pipeline on finite data -/

theorem roundedData_eq (stats : List (String × ℚ)) {T : ℚ} (hT : T ≠ 0) :
    roundedData stats T = (entriesSorted stats).map fun e =>
      ⟨e.1, e.2, fin (e.2 / T * 100), fin (rnd2 (e.2 / T * 100)),
        fin (e.2 / T * 100 - rnd2 (e.2 / T * 100))⟩ := by
  unfold roundedData rawPercentages
  rw [List.map_map]
  refine List.map_congr_left fun e _ => ?_
  simp [Function.comp, jsDiv_of_ne_zero _ hT]

theorem roundedData_proj (stats : List (String × ℚ)) (T : ℚ) :
    (roundedData stats T).map (fun it => (it.language, it.size)) = entriesSorted stats := by
  unfold roundedData rawPercentages
  simp only [List.map_map]
  conv_rhs => rw [show entriesSorted stats = (entriesSorted stats).map id from (List.map_id _).symm]
  exact List.map_congr_left fun e _ => rfl

theorem foldl_jsAdd_map {β : Type} (l : List β) (f : β → Item) (v : β → ℚ)
    (hf : ∀ b, (f b).rounded = fin (v b)) :
    ∀ q0 : ℚ, (l.map f).foldl (fun s it => jsAdd s it.rounded) (fin q0) =
      fin (q0 + (l.map v).sum) := by
  induction l with
  | nil => intro q0; simp
  | cons h t ih =>
      intro q0
      simp only [List.map_cons, List.foldl_cons, hf, jsAdd_fin_fin, List.sum_cons]
      rw [ih]
      rw [add_assoc]

theorem sumRounded_eq (stats : List (String × ℚ)) {T : ℚ} (hT : T ≠ 0) :
    sumRounded stats T =
      fin (((entriesSorted stats).map fun e => rnd2 (e.2 / T * 100)).sum) := by
  rw [sumRounded, roundedData_eq stats hT,
    foldl_jsAdd_map _ _ (fun e => rnd2 (e.2 / T * 100)) (fun b => rfl), zero_add]

theorem sum_map_rnd2 (l : List (String × ℚ)) (g : String × ℚ → ℚ) :
    (l.map fun e => rnd2 (g e)).sum = (((l.map fun e => round (g e * 100)).sum : ℤ) : ℚ) / 100 := by
  induction l with
  | nil => simp
  | cons h t ih =>
      simp only [List.map_cons, List.sum_cons]
      rw [ih, rnd2]
      generalize (List.map (fun e => round (g e * 100)) t).sum = S
      push_cast
      ring

theorem difference_eq (stats : List (String × ℚ)) {T : ℚ} (hT : T ≠ 0) :
    difference stats T =
      fin ((((10000 - ((entriesSorted stats).map fun e => round (e.2 / T * 100 * 100)).sum : ℤ)) : ℚ)
        / 100) := by
  rw [difference, sumRounded_eq stats hT, sum_map_rnd2 _ (fun e => e.2 / T * 100),
    jsSub_fin_fin, round2_fin]
  have h1 : (100 : ℚ) - (((((entriesSorted stats).map fun e => round (e.2 / T * 100 * 100)).sum : ℤ)) : ℚ) / 100 =
      ((((10000 - ((entriesSorted stats).map fun e => round (e.2 / T * 100 * 100)).sum : ℤ)) : ℚ)) / 100 := by
    push_cast
    ring
  rw [h1, rnd2_intCast_div]

theorem roundedData_rounded_int (stats : List (String × ℚ)) {T : ℚ} (hT : T ≠ 0) :
    ∀ it ∈ roundedData stats T, ∃ m : ℤ, it.rounded = fin ((m : ℚ) / 100) := by
  intro it hit
  rw [roundedData_eq stats hT] at hit
  obtain ⟨e, _, rfl⟩ := List.mem_map.mp hit
  simpa using rnd2_eq_int_div (e.2 / T * 100)

/-! ### The adjustment loop -/

theorem adjustLoop_zero : ∀ l : List (ℕ × Item), adjustLoop l (fin 0) = l
  | [] => rfl
  | x :: rest => by
      have hc : jsLt (jsAbs (fin 0)) (fin (1 / 1000)) = true := by
        norm_num [jsAbs, jsLt, jsGt]
      simp [adjustLoop, hc]

theorem intCast_zero_div : ((((0 : ℤ)) : ℚ)) / 100 = 0 := by norm_num

theorem adjustLoop_guard_false {j : ℤ} (hj : j ≠ 0) :
    jsLt (jsAbs (fin ((j : ℚ) / 100))) (fin (1 / 1000)) = false := by
  rw [jsAbs_fin]
  simp only [jsLt, jsGt, decide_eq_false_iff_not, not_lt]
  have h1 : (1 : ℚ) ≤ |(j : ℚ)| := by
    exact_mod_cast Int.one_le_abs (by omega)
  have h2 : |(j : ℚ) / 100| = |(j : ℚ)| / 100 := by
    rw [abs_div]
    norm_num
  rw [h2]
  linarith

theorem adjustLoop_cons_pos (x : ℕ × Item) (rest : List (ℕ × Item)) {j : ℤ} (hj : 0 < j)
    {m : ℤ} (hm : x.2.rounded = fin ((m : ℚ) / 100)) :
    adjustLoop (x :: rest) (fin ((j : ℚ) / 100)) =
      (x.1, { x.2 with rounded := fin (((m + 1 : ℤ) : ℚ) / 100) }) ::
        adjustLoop rest (fin (((j - 1 : ℤ) : ℚ) / 100)) := by
  have hguard := @adjustLoop_guard_false j (by omega)
  have hsign : jsSign (fin ((j : ℚ) / 100)) = fin 1 := by
    have hpos : 0 < (j : ℚ) / 100 := by
      apply div_pos _ (by norm_num)
      exact_mod_cast hj
    simp [jsSign, hpos]
  have hadj : jsMul (jsSign (fin ((j : ℚ) / 100))) (fin (1 / 100)) = fin (1 / 100) := by
    rw [hsign, jsMul_fin_fin, one_mul]
  have hnewR : round2 (jsAdd x.2.rounded (fin (1 / 100))) = fin (((m + 1 : ℤ) : ℚ) / 100) := by
    rw [hm, jsAdd_fin_fin, round2_fin]
    have h3 : (m : ℚ) / 100 + 1 / 100 = ((m + 1 : ℤ) : ℚ) / 100 := by
      push_cast
      ring
    rw [h3, rnd2_intCast_div]
  have hnewRem : round2 (jsSub (fin ((j : ℚ) / 100)) (fin (1 / 100))) =
      fin (((j - 1 : ℤ) : ℚ) / 100) := by
    rw [jsSub_fin_fin, round2_fin]
    have h3 : (j : ℚ) / 100 - 1 / 100 = ((j - 1 : ℤ) : ℚ) / 100 := by
      push_cast
      ring
    rw [h3, rnd2_intCast_div]
  simp only [adjustLoop, hguard, Bool.false_eq_true, if_false, hadj, hnewR, hnewRem]

theorem adjustLoop_cons_neg (x : ℕ × Item) (rest : List (ℕ × Item)) {j : ℤ} (hj : j < 0)
    {m : ℤ} (hm : x.2.rounded = fin ((m : ℚ) / 100)) :
    adjustLoop (x :: rest) (fin ((j : ℚ) / 100)) =
      (x.1, { x.2 with rounded := fin (((m - 1 : ℤ) : ℚ) / 100) }) ::
        adjustLoop rest (fin (((j + 1 : ℤ) : ℚ) / 100)) := by
  have hguard := @adjustLoop_guard_false j (by omega)
  have hsign : jsSign (fin ((j : ℚ) / 100)) = fin (-1) := by
    have hneg : (j : ℚ) / 100 < 0 := by
      apply div_neg_of_neg_of_pos _ (by norm_num)
      exact_mod_cast hj
    have hnpos : ¬ (0 : ℚ) < (j : ℚ) / 100 := by linarith
    simp [jsSign, hnpos, hneg]
  have hadj : jsMul (jsSign (fin ((j : ℚ) / 100))) (fin (1 / 100)) = fin (-(1 / 100)) := by
    rw [hsign, jsMul_fin_fin]
    norm_num
  have hnewR : round2 (jsAdd x.2.rounded (fin (-(1 / 100)))) = fin (((m - 1 : ℤ) : ℚ) / 100) := by
    rw [hm, jsAdd_fin_fin, round2_fin]
    have h3 : (m : ℚ) / 100 + -(1 / 100) = ((m - 1 : ℤ) : ℚ) / 100 := by
      push_cast
      ring
    rw [h3, rnd2_intCast_div]
  have hnewRem : round2 (jsSub (fin ((j : ℚ) / 100)) (fin (-(1 / 100)))) =
      fin (((j + 1 : ℤ) : ℚ) / 100) := by
    rw [jsSub_fin_fin, round2_fin]
    have h3 : (j : ℚ) / 100 - -(1 / 100) = ((j + 1 : ℤ) : ℚ) / 100 := by
      push_cast
      ring
    rw [h3, rnd2_intCast_div]
  simp only [adjustLoop, hguard, Bool.false_eq_true, if_false, hadj, hnewR, hnewRem]

theorem rnd2_eval (q : ℚ) (k : ℤ) (h1 : (k : ℚ) ≤ q * 100 + 1 / 2)
    (h2 : q * 100 + 1 / 2 < (k : ℚ) + 1) : rnd2 q = (k : ℚ) / 100 := by
  have h : round (q * 100) = k := by
    rw [round_eq, Int.floor_eq_iff]
    exact ⟨h1, h2⟩
  rw [rnd2, h]

theorem adjustLoop_proj (l : List (ℕ × Item)) (rem : JsNum) :
    (adjustLoop l rem).map (fun x => (x.1, x.2.language, x.2.size, x.2.percentage, x.2.remainder)) =
      l.map fun x => (x.1, x.2.language, x.2.size, x.2.percentage, x.2.remainder) := by
  induction l generalizing rem with
  | nil => rfl
  | cons x rest ih =>
      by_cases hc : jsLt (jsAbs rem) (fin (1 / 1000)) = true
      · simp only [adjustLoop]
        rw [hc]
        simp
      · rw [Bool.not_eq_true] at hc
        simp only [adjustLoop]
        rw [hc]
        simp [ih]

theorem adjustLoop_length (l : List (ℕ × Item)) (rem : JsNum) :
    (adjustLoop l rem).length = l.length := by
  have h := congrArg List.length (adjustLoop_proj l rem)
  simpa using h

theorem adjustLoop_sum (l : List (ℕ × Item)) : ∀ j : ℤ, j.natAbs ≤ l.length →
    (∀ x ∈ l, ∃ m : ℤ, x.2.rounded = fin ((m : ℚ) / 100)) →
    ((adjustLoop l (fin ((j : ℚ) / 100))).map fun x => jsToQ x.2.rounded).sum =
      ((l.map fun x => jsToQ x.2.rounded).sum) + (j : ℚ) / 100 := by
  induction l with
  | nil =>
      intro j hj _
      obtain rfl : j = 0 := by simp only [List.length_nil] at hj; omega
      norm_num [adjustLoop]
  | cons x rest ih =>
      intro j hj hfin
      by_cases hj0 : j = 0
      · subst hj0
        rw [show (((0 : ℤ) : ℚ)) / 100 = 0 by norm_num, adjustLoop_zero]
        norm_num
      · obtain ⟨m, hm⟩ := hfin x (List.mem_cons_self x rest)
        rcases (Ne.lt_or_lt hj0) with hneg | hpos
        · rw [adjustLoop_cons_neg x rest hneg hm]
          simp only [List.map_cons, List.sum_cons, hm, jsToQ_fin]
          rw [ih (j + 1) (by simp only [List.length_cons] at hj; omega)
            (fun y hy => hfin y (List.mem_cons_of_mem x hy))]
          push_cast
          ring
        · rw [adjustLoop_cons_pos x rest hpos hm]
          simp only [List.map_cons, List.sum_cons, hm, jsToQ_fin]
          rw [ih (j - 1) (by simp only [List.length_cons] at hj; omega)
            (fun y hy => hfin y (List.mem_cons_of_mem x hy))]
          push_cast
          ring

theorem adjustLoop_mem (l : List (ℕ × Item)) : ∀ j : ℤ,
    (∀ x ∈ l, ∃ m : ℤ, x.2.rounded = fin ((m : ℚ) / 100)) →
    ∀ y ∈ adjustLoop l (fin ((j : ℚ) / 100)),
      ∃ x ∈ l, y.1 = x.1 ∧ y.2.language = x.2.language ∧ y.2.size = x.2.size ∧
        y.2.percentage = x.2.percentage ∧
        (y.2.rounded = x.2.rounded ∨
          ∃ m : ℤ, x.2.rounded = fin ((m : ℚ) / 100) ∧
            (y.2.rounded = fin (((m + 1 : ℤ) : ℚ) / 100) ∨
              y.2.rounded = fin (((m - 1 : ℤ) : ℚ) / 100))) := by
  induction l with
  | nil => intro j _ y hy; simp [adjustLoop] at hy
  | cons x rest ih =>
      intro j hfin y hy
      by_cases hj0 : j = 0
      · subst hj0
        rw [show (((0 : ℤ) : ℚ)) / 100 = 0 by norm_num, adjustLoop_zero] at hy
        exact ⟨y, hy, rfl, rfl, rfl, rfl, Or.inl rfl⟩
      · obtain ⟨m, hm⟩ := hfin x (List.mem_cons_self x rest)
        rcases (Ne.lt_or_lt hj0) with hneg | hpos
        · rw [adjustLoop_cons_neg x rest hneg hm] at hy
          rcases List.mem_cons.mp hy with rfl | hyt
          · exact ⟨x, List.mem_cons_self x rest, rfl, rfl, rfl, rfl,
              Or.inr ⟨m, hm, Or.inr rfl⟩⟩
          · obtain ⟨z, hz, h1, h2, h3, h4, h5⟩ :=
              ih (j + 1) (fun u hu => hfin u (List.mem_cons_of_mem x hu)) y hyt
            exact ⟨z, List.mem_cons_of_mem x hz, h1, h2, h3, h4, h5⟩
        · rw [adjustLoop_cons_pos x rest hpos hm] at hy
          rcases List.mem_cons.mp hy with rfl | hyt
          · exact ⟨x, List.mem_cons_self x rest, rfl, rfl, rfl, rfl,
              Or.inr ⟨m, hm, Or.inl rfl⟩⟩
          · obtain ⟨z, hz, h1, h2, h3, h4, h5⟩ :=
              ih (j - 1) (fun u hu => hfin u (List.mem_cons_of_mem x hu)) y hyt
            exact ⟨z, List.mem_cons_of_mem x hz, h1, h2, h3, h4, h5⟩

theorem le_fst_of_mem_enumFrom {β : Type} :
    ∀ {n : ℕ} {l : List β} {y : ℕ × β}, y ∈ List.enumFrom n l → n ≤ y.1 := by
  intro n l
  induction l generalizing n with
  | nil => intro y hy; simp at hy
  | cons x rest ih =>
      intro y hy
      rcases List.mem_cons.mp hy with rfl | hyt
      · exact le_refl n
      · exact Nat.le_of_succ_le (ih hyt)

theorem pairwise_fst_lt_enumFrom {β : Type} :
    ∀ (n : ℕ) (l : List β), (List.enumFrom n l).Pairwise fun a b => a.1 < b.1 := by
  intro n l
  induction l generalizing n with
  | nil => exact List.Pairwise.nil
  | cons x rest ih =>
      refine List.Pairwise.cons ?_ (ih (n + 1))
      intro y hy
      exact Nat.lt_of_succ_le (le_fst_of_mem_enumFrom hy)

theorem pairwise_fst_lt_enum {β : Type} (l : List β) :
    l.enum.Pairwise fun a b => a.1 < b.1 :=
  pairwise_fst_lt_enumFrom 0 l

theorem adjustLoop_proj3 (l : List (ℕ × Item)) (rem : JsNum) :
    (adjustLoop l rem).map (fun x => (x.1, x.2.language, x.2.size)) =
      l.map fun x => (x.1, x.2.language, x.2.size) := by
  induction l generalizing rem with
  | nil => rfl
  | cons x rest ih =>
      by_cases hc : jsLt (jsAbs rem) (fin (1 / 1000)) = true
      · simp only [adjustLoop]
        rw [hc]
        simp
      · rw [Bool.not_eq_true] at hc
        simp only [adjustLoop]
        rw [hc]
        simp [ih]

theorem adjustLoop_fst (l : List (ℕ × Item)) (rem : JsNum) :
    (adjustLoop l rem).map Prod.fst = l.map Prod.fst := by
  have h := congrArg (List.map fun t : ℕ × String × ℚ => t.1) (adjustLoop_proj3 l rem)
  simpa [List.map_map, Function.comp] using h

theorem adjustedData_proj (stats : List (String × ℚ)) (T : ℚ) :
    (adjustedData stats T).map (fun it => (it.language, it.size)) =
      (roundedData stats T).map fun it => (it.language, it.size) := by
  unfold adjustedData
  by_cases hg : jsGt (jsAbs (difference stats T)) (fin (1 / 100)) = true
  swap
  · rw [Bool.not_eq_true] at hg
    rw [hg]
    simp
  rw [hg]
  simp only [if_true]
  set rd := roundedData stats T with hrd
  set D := adjustLoop (sortedByRemainder stats T) (difference stats T) with hD
  set A := insSortBy byIdxAsc D with hA
  have hmapA : A.map (fun x => (x.1, x.2.language, x.2.size)) =
      rd.enum.map fun x => (x.1, x.2.language, x.2.size) := by
    have hperm : (A.map fun x => (x.1, x.2.language, x.2.size)).Perm
        (rd.enum.map fun x => (x.1, x.2.language, x.2.size)) := by
      refine ((insSortBy_perm byIdxAsc D).map _).trans ?_
      rw [hD, adjustLoop_proj3]
      exact (insSortBy_perm byRemDesc rd.enum).map _
    have hfstperm : (A.map Prod.fst).Perm (List.range rd.length) := by
      have h1 : (A.map Prod.fst).Perm (D.map Prod.fst) :=
        (insSortBy_perm byIdxAsc D).map _
      rw [hD, adjustLoop_fst]
      at h1
      refine h1.trans ?_
      have h2 : ((sortedByRemainder stats T).map Prod.fst).Perm (rd.enum.map Prod.fst) :=
        (insSortBy_perm byRemDesc rd.enum).map _
      rw [List.enum_map_fst] at h2
      exact h2
    have hnodupA : (A.map Prod.fst).Nodup := hfstperm.nodup_iff.mpr (List.nodup_range _)
    have hle : A.Pairwise fun a b => a.1 ≤ b.1 := by
      have h := insSortBy_pairwise byIdxAsc_asymm byIdxAsc_trans D
      rw [← hA] at h
      refine h.imp fun hab => ?_
      simp only [byIdxAsc, decide_eq_false_iff_not, not_lt] at hab
      exact hab
    have hne : A.Pairwise fun a b => a.1 ≠ b.1 := by
      rw [List.Nodup, List.pairwise_map] at hnodupA
      exact hnodupA
    have hlt : A.Pairwise fun a b => a.1 < b.1 :=
      (hle.and hne).imp fun hab => lt_of_le_of_ne hab.1 hab.2
    have hsortA : (A.map fun x => (x.1, x.2.language, x.2.size)).Pairwise
        fun a b => a.1 < b.1 := by
      rw [List.pairwise_map]
      exact hlt
    have hsortE : (rd.enum.map fun x => (x.1, x.2.language, x.2.size)).Pairwise
        fun a b => a.1 < b.1 := by
      rw [List.pairwise_map]
      exact pairwise_fst_lt_enum rd
    haveI : IsAntisymm (ℕ × String × ℚ) (fun a b => a.1 < b.1) :=
      ⟨fun a b h h2 => absurd (lt_trans h h2) (lt_irrefl _)⟩
    exact List.eq_of_perm_of_sorted hperm hsortA hsortE
  have h3 := congrArg (List.map fun t : ℕ × String × ℚ => t.2) hmapA
  simp only [List.map_map] at h3
  calc (A.map Prod.snd).map (fun it => (it.language, it.size)) =
        A.map ((fun t : ℕ × String × ℚ => t.2) ∘ fun x => (x.1, x.2.language, x.2.size)) := by
          rw [List.map_map]
          rfl
    _ = rd.enum.map ((fun t : ℕ × String × ℚ => t.2) ∘ fun x => (x.1, x.2.language, x.2.size)) :=
          h3
    _ = (rd.enum.map Prod.snd).map fun it => (it.language, it.size) := by
          rw [List.map_map]
          rfl
    _ = rd.map fun it => (it.language, it.size) := by rw [List.enum_map_snd]

theorem sum_map_mul_snd (l : List (String × ℚ)) (c : ℚ) :
    (l.map fun e => e.2 * c).sum = (l.map Prod.snd).sum * c := by
  induction l with
  | nil => simp
  | cons h t ih => simp [ih, add_mul]

theorem sum_map_sub_q {β : Type} (l : List β) (f g : β → ℚ) :
    (l.map fun b => f b - g b).sum = (l.map f).sum - (l.map g).sum := by
  induction l with
  | nil => simp
  | cons h t ih =>
      simp only [List.map_cons, List.sum_cons, ih]
      ring

theorem sum_map_intCast {β : Type} (l : List β) (f : β → ℤ) :
    (((l.map f).sum : ℤ) : ℚ) = (l.map fun b => ((f b : ℤ) : ℚ)).sum := by
  induction l with
  | nil => simp
  | cons h t ih =>
      simp only [List.map_cons, List.sum_cons]
      push_cast
      rw [List.map_map]
      rfl

theorem abs_list_sum_le (l : List ℚ) : |l.sum| ≤ (l.map fun x => |x|).sum := by
  induction l with
  | nil => simp
  | cons h t ih =>
      simp only [List.sum_cons, List.map_cons]
      exact (abs_add h t.sum).trans (by linarith)

theorem roundedData_length (stats : List (String × ℚ)) (T : ℚ) :
    (roundedData stats T).length = (entriesSorted stats).length := by
  simp [roundedData, rawPercentages]

theorem snd_mem_of_mem_enum {β : Type} {l : List β} {x : ℕ × β} (h : x ∈ l.enum) : x.2 ∈ l := by
  have h2 := List.mem_map_of_mem Prod.snd h
  rwa [List.enum_map_snd] at h2

theorem sortedByRemainder_rounded_int (stats : List (String × ℚ)) {T : ℚ} (hT : T ≠ 0) :
    ∀ x ∈ sortedByRemainder stats T, ∃ m : ℤ, x.2.rounded = fin ((m : ℚ) / 100) := by
  intro x hx
  have hx2 : x ∈ (roundedData stats T).enum :=
    (insSortBy_perm byRemDesc (roundedData stats T).enum).subset hx
  exact roundedData_rounded_int stats hT x.2 (snd_mem_of_mem_enum hx2)

theorem sortedByRemainder_length (stats : List (String × ℚ)) (T : ℚ) :
    (sortedByRemainder stats T).length = (roundedData stats T).length := by
  rw [sortedByRemainder, (insSortBy_perm byRemDesc (roundedData stats T).enum).length_eq,
    List.enum_length]

theorem roundedData_sum (stats : List (String × ℚ)) {T : ℚ} (hT : T ≠ 0) :
    ((roundedData stats T).map fun it => jsToQ it.rounded).sum =
      ((((entriesSorted stats).map fun e => round (e.2 / T * 100 * 100)).sum : ℤ) : ℚ) / 100 := by
  rw [roundedData_eq stats hT, List.map_map]
  have h : ((fun it : Item => jsToQ it.rounded) ∘ fun e : String × ℚ =>
      (⟨e.1, e.2, fin (e.2 / T * 100), fin (rnd2 (e.2 / T * 100)),
        fin (e.2 / T * 100 - rnd2 (e.2 / T * 100))⟩ : Item)) =
      fun e : String × ℚ => rnd2 (e.2 / T * 100) := rfl
  rw [h, sum_map_rnd2]

theorem adjustedData_sum_of_guard (stats : List (String × ℚ)) {T : ℚ} (hT : T ≠ 0)
    (hg : jsGt (jsAbs (difference stats T)) (fin (1 / 100)) = true)
    (hlen : (10000 - ((entriesSorted stats).map fun e => round (e.2 / T * 100 * 100)).sum).natAbs ≤
      (entriesSorted stats).length) :
    ((adjustedData stats T).map fun it => jsToQ it.rounded).sum = 100 := by
  set M : ℤ := ((entriesSorted stats).map fun e => round (e.2 / T * 100 * 100)).sum with hM
  unfold adjustedData
  rw [hg]
  simp only [if_true]
  have hdiff : difference stats T = fin (((10000 - M : ℤ) : ℚ) / 100) := difference_eq stats hT
  have hperm1 : ((insSortBy byIdxAsc
      (adjustLoop (sortedByRemainder stats T) (difference stats T))).map Prod.snd).Perm
      ((adjustLoop (sortedByRemainder stats T) (difference stats T)).map Prod.snd) :=
    (insSortBy_perm byIdxAsc _).map _
  have hsum1 : (((insSortBy byIdxAsc
      (adjustLoop (sortedByRemainder stats T) (difference stats T))).map Prod.snd).map
        fun it => jsToQ it.rounded).sum =
      (((adjustLoop (sortedByRemainder stats T) (difference stats T)).map Prod.snd).map
        fun it => jsToQ it.rounded).sum :=
    (hperm1.map _).sum_eq
  rw [hsum1]
  have hlen2 : (10000 - M).natAbs ≤ (sortedByRemainder stats T).length := by
    rw [sortedByRemainder_length, roundedData_length]
    exact hlen
  have hloop := adjustLoop_sum (sortedByRemainder stats T) (10000 - M) hlen2
    (sortedByRemainder_rounded_int stats hT)
  rw [hdiff]
  rw [List.map_map]
  have hcomp : ((fun it : Item => jsToQ it.rounded) ∘ Prod.snd) =
      fun x : ℕ × Item => jsToQ x.2.rounded := rfl
  rw [hcomp, hloop]
  have hperm2 : ((sortedByRemainder stats T).map fun x => jsToQ x.2.rounded).Perm
      ((roundedData stats T).enum.map fun x => jsToQ x.2.rounded) :=
    (insSortBy_perm byRemDesc (roundedData stats T).enum).map _
  rw [hperm2.sum_eq]
  have henum : ((roundedData stats T).enum.map fun x => jsToQ x.2.rounded) =
      (roundedData stats T).map fun it => jsToQ it.rounded := by
    have h4 : (fun x : ℕ × Item => jsToQ x.2.rounded) =
        (fun it : Item => jsToQ it.rounded) ∘ Prod.snd := rfl
    rw [h4, ← List.map_map, List.enum_map_snd]
  rw [henum, roundedData_sum stats hT, ← hM]
  push_cast
  ring

theorem diff_int_bound (stats : List (String × ℚ)) {T : ℚ} (hT : T ≠ 0)
    (hsum : (stats.map Prod.snd).sum = T) :
    (10000 - ((entriesSorted stats).map fun e => round (e.2 / T * 100 * 100)).sum).natAbs ≤
      (entriesSorted stats).length := by
  set L := entriesSorted stats with hL
  set M : ℤ := (L.map fun e => round (e.2 / T * 100 * 100)).sum with hM
  have hLperm : L.Perm stats := insSortBy_perm _ _
  have hsumL : (L.map Prod.snd).sum = T := by
    rw [← hsum]
    exact (hLperm.map Prod.snd).sum_eq
  have hsum_p100 : (L.map fun e => e.2 / T * 100 * 100).sum = 10000 := by
    have hcongr : L.map (fun e => e.2 / T * 100 * 100) = L.map fun e => e.2 * (10000 / T) :=
      List.map_congr_left fun e _ => by ring
    rw [hcongr, sum_map_mul_snd, hsumL]
    field_simp
  have hcast : ((10000 - M : ℤ) : ℚ) =
      (L.map fun e => (e.2 / T * 100 * 100 - ((round (e.2 / T * 100 * 100) : ℤ) : ℚ))).sum := by
    rw [sum_map_sub_q, hsum_p100]
    have h1 : ((M : ℤ) : ℚ) = (L.map fun e => ((round (e.2 / T * 100 * 100) : ℤ) : ℚ)).sum := by
      rw [hM]
      exact sum_map_intCast L _
    push_cast
    rw [h1]
  have hbound : |((10000 - M : ℤ) : ℚ)| ≤ (L.length : ℚ) * (1 / 2) := by
    rw [hcast]
    refine (abs_list_sum_le _).trans ?_
    have h2 : ∀ x ∈ (L.map fun e =>
        (e.2 / T * 100 * 100 - ((round (e.2 / T * 100 * 100) : ℤ) : ℚ))).map (fun x => |x|),
        x ≤ 1 / 2 := by
      intro x hx
      simp only [List.map_map, List.mem_map, Function.comp] at hx
      obtain ⟨e, _, rfl⟩ := hx
      exact abs_sub_round _
    have h3 := List.sum_le_card_nsmul _ (1 / 2 : ℚ) h2
    simpa [nsmul_eq_mul] using h3
  have h4 : (((10000 - M).natAbs : ℕ) : ℚ) ≤ (L.length : ℚ) := by
    rw [Int.cast_natAbs, Int.cast_abs]
    have h5 : (0 : ℚ) ≤ (L.length : ℚ) := Nat.cast_nonneg _
    calc |((10000 - M : ℤ) : ℚ)| ≤ (L.length : ℚ) * (1 / 2) := hbound
      _ ≤ (L.length : ℚ) := by linarith
  exact_mod_cast h4

/-- C1, amended: with positive sizes summing to the supplied total, and
provided no entry is eliminated by the final positivity filter, the
returned percentages sum to within 0.01 of 100.00 (exactly 100.00 is not
guaranteed: three equal sizes return three times 33.33 = 99.99). -/
theorem C1_sum_within (stats : List (String × ℚ)) (T : ℚ) (h1 : stats ≠ [])
    (h2 : ∀ e ∈ stats, 0 < e.2) (h3 : T = (stats.map Prod.snd).sum)
    (h4 : ∀ it ∈ adjustedData stats T, jsGt it.rounded (fin 0) = true) :
    |percentageSum stats T - 100| ≤ 1 / 100 := by
  have hmapne : stats.map Prod.snd ≠ [] := by
    intro hcon
    exact h1 (List.map_eq_nil_iff.mp hcon)
  have hpos : ∀ x ∈ stats.map Prod.snd, 0 < x := by
    intro x hx
    obtain ⟨e, he, rfl⟩ := List.mem_map.mp hx
    exact h2 e he
  have hTpos : 0 < T := h3 ▸ List.sum_pos _ hpos hmapne
  have hT : T ≠ 0 := ne_of_gt hTpos
  have hfilter : (adjustedData stats T).filter (fun it => jsGt it.rounded (fin 0)) =
      adjustedData stats T := List.filter_eq_self.mpr h4
  have hps : percentageSum stats T = ((adjustedData stats T).map fun it => jsToQ it.rounded).sum := by
    rw [percentageSum, calculateLanguagePercentages, hfilter, List.map_map]
    rfl
  have hlen := diff_int_bound stats hT h3.symm
  by_cases hg : jsGt (jsAbs (difference stats T)) (fin (1 / 100)) = true
  · rw [hps, adjustedData_sum_of_guard stats hT hg hlen]
    norm_num
  · rw [Bool.not_eq_true] at hg
    have hadj : adjustedData stats T = roundedData stats T := by
      unfold adjustedData
      rw [hg]
      simp
    rw [hps, hadj, roundedData_sum stats hT]
    set M : ℤ := ((entriesSorted stats).map fun e => round (e.2 / T * 100 * 100)).sum with hM
    have hdiff : difference stats T = fin (((10000 - M : ℤ) : ℚ) / 100) := difference_eq stats hT
    rw [hdiff, jsAbs_fin] at hg
    simp only [jsGt, decide_eq_false_iff_not, not_lt] at hg
    have h6 : ((M : ℤ) : ℚ) / 100 - 100 = -(((10000 - M : ℤ) : ℚ) / 100) := by
      push_cast
      ring
    rw [h6, abs_neg]
    exact hg

/-! ### Concrete evaluations

`Rat` arithmetic does not reduce in the kernel, so the concrete runs of the
pipeline are evaluated by `norm_num` with explicit rounding facts. -/

theorem specCeil2_eval (q : ℚ) (k : ℤ) (h1 : (k : ℚ) - 1 < q * 100) (h2 : q * 100 ≤ (k : ℚ)) :
    specCeil2 q = (k : ℚ) / 100 := by
  have h : ⌈q * 100⌉ = k := by
    rw [Int.ceil_eq_iff]
    exact ⟨h1, h2⟩
  rw [specCeil2, h]

theorem hrnd_0 : rnd2 (0 : ℚ) = 0 := by
  rw [rnd2_eval 0 0 (by norm_num) (by norm_num)]
  norm_num

theorem hrnd_100 : rnd2 (100 : ℚ) = 100 := by
  rw [rnd2_eval 100 10000 (by norm_num) (by norm_num)]
  norm_num

theorem hrnd_centi : rnd2 ((1 : ℚ) / 100) = 1 / 100 := by
  rw [rnd2_eval ((1 : ℚ) / 100) 1 (by norm_num) (by norm_num)]
  norm_num

theorem hrnd_neg_centi : rnd2 (-(1 : ℚ) / 100) = -(1 / 100) := by
  rw [rnd2_eval (-(1 : ℚ) / 100) (-1) (by norm_num) (by norm_num)]
  norm_num

theorem eval3_entries : entriesSorted [("A", (1 : ℚ)), ("B", 1), ("C", 1)] =
    [("A", 1), ("B", 1), ("C", 1)] := by
  norm_num [entriesSorted, insSortBy, insertB, bySizeDesc]

theorem hrnd_third : rnd2 ((1 : ℚ) / 3 * 100) = 3333 / 100 := by
  rw [rnd2_eval ((1 : ℚ) / 3 * 100) 3333 (by norm_num) (by norm_num)]
  norm_num

theorem hrnd_third' : rnd2 ((100 : ℚ) / 3) = 3333 / 100 := by
  rw [rnd2_eval ((100 : ℚ) / 3) 3333 (by norm_num) (by norm_num)]
  norm_num

theorem eval3_rounded : roundedData [("A", (1 : ℚ)), ("B", 1), ("C", 1)] 3 =
    [⟨"A", 1, fin (100 / 3), fin (3333 / 100), fin (100 / 3 - 3333 / 100)⟩,
     ⟨"B", 1, fin (100 / 3), fin (3333 / 100), fin (100 / 3 - 3333 / 100)⟩,
     ⟨"C", 1, fin (100 / 3), fin (3333 / 100), fin (100 / 3 - 3333 / 100)⟩] := by
  rw [roundedData_eq _ (by norm_num : (3 : ℚ) ≠ 0), eval3_entries]
  norm_num [hrnd_third, hrnd_third']

theorem eval3_sumR : sumRounded [("A", (1 : ℚ)), ("B", 1), ("C", 1)] 3 = fin (9999 / 100) := by
  rw [sumRounded, eval3_rounded]
  norm_num

theorem eval3_diff : difference [("A", (1 : ℚ)), ("B", 1), ("C", 1)] 3 = fin (1 / 100) := by
  rw [difference, eval3_sumR]
  norm_num [hrnd_centi]

theorem eval3_adjusted : adjustedData [("A", (1 : ℚ)), ("B", 1), ("C", 1)] 3 =
    [⟨"A", 1, fin (100 / 3), fin (3333 / 100), fin (100 / 3 - 3333 / 100)⟩,
     ⟨"B", 1, fin (100 / 3), fin (3333 / 100), fin (100 / 3 - 3333 / 100)⟩,
     ⟨"C", 1, fin (100 / 3), fin (3333 / 100), fin (100 / 3 - 3333 / 100)⟩] := by
  rw [adjustedData, eval3_diff]
  norm_num [jsAbs, jsGt, eval3_rounded]

theorem eval3_calc : calculateLanguagePercentages [("A", (1 : ℚ)), ("B", 1), ("C", 1)] 3 =
    [("A", 1, fin (3333 / 100)), ("B", 1, fin (3333 / 100)), ("C", 1, fin (3333 / 100))] := by
  rw [calculateLanguagePercentages, eval3_adjusted]
  norm_num [jsGt]

theorem eval3_sum : percentageSum [("A", (1 : ℚ)), ("B", 1), ("C", 1)] 3 = 9999 / 100 := by
  rw [percentageSum, eval3_calc]
  norm_num [jsToQ]

theorem hrnd_A2 : rnd2 ((999999 : ℚ) / 1000000 * 100) = 100 := by
  rw [rnd2_eval ((999999 : ℚ) / 1000000 * 100) 10000 (by norm_num) (by norm_num)]
  norm_num

theorem hrnd_A2' : rnd2 ((999999 : ℚ) / 10000) = 100 := by
  rw [rnd2_eval ((999999 : ℚ) / 10000) 10000 (by norm_num) (by norm_num)]
  norm_num

theorem hrnd_B2 : rnd2 ((1 : ℚ) / 1000000 * 100) = 0 := by
  rw [rnd2_eval ((1 : ℚ) / 1000000 * 100) 0 (by norm_num) (by norm_num)]
  norm_num

theorem hrnd_B2' : rnd2 ((1 : ℚ) / 10000) = 0 := by
  rw [rnd2_eval ((1 : ℚ) / 10000) 0 (by norm_num) (by norm_num)]
  norm_num

theorem eval2_entries : entriesSorted [("A", (999999 : ℚ)), ("B", 1)] =
    [("A", 999999), ("B", 1)] := by
  norm_num [entriesSorted, insSortBy, insertB, bySizeDesc]

theorem eval2_rounded : roundedData [("A", (999999 : ℚ)), ("B", 1)] 1000000 =
    [⟨"A", 999999, fin (999999 / 10000), fin 100, fin (999999 / 10000 - 100)⟩,
     ⟨"B", 1, fin (1 / 10000), fin 0, fin (1 / 10000)⟩] := by
  rw [roundedData_eq _ (by norm_num : (1000000 : ℚ) ≠ 0), eval2_entries]
  norm_num [hrnd_A2, hrnd_A2', hrnd_B2, hrnd_B2']

theorem eval2_sumR : sumRounded [("A", (999999 : ℚ)), ("B", 1)] 1000000 = fin 100 := by
  rw [sumRounded, eval2_rounded]
  norm_num

theorem eval2_diff : difference [("A", (999999 : ℚ)), ("B", 1)] 1000000 = fin 0 := by
  rw [difference, eval2_sumR]
  norm_num [hrnd_0]

theorem eval2_adjusted : adjustedData [("A", (999999 : ℚ)), ("B", 1)] 1000000 =
    [⟨"A", 999999, fin (999999 / 10000), fin 100, fin (999999 / 10000 - 100)⟩,
     ⟨"B", 1, fin (1 / 10000), fin 0, fin (1 / 10000)⟩] := by
  rw [adjustedData, eval2_diff]
  norm_num [jsAbs, jsGt, eval2_rounded]

theorem eval2_calc : calculateLanguagePercentages [("A", (999999 : ℚ)), ("B", 1)] 1000000 =
    [("A", 999999, fin 100)] := by
  rw [calculateLanguagePercentages, eval2_adjusted]
  norm_num [jsGt]

theorem hrnd_A3 : rnd2 ((99996 : ℚ) / 100000 * 100) = 100 := by
  rw [rnd2_eval ((99996 : ℚ) / 100000 * 100) 10000 (by norm_num) (by norm_num)]
  norm_num

theorem hrnd_A3' : rnd2 ((24999 : ℚ) / 250) = 100 := by
  rw [rnd2_eval ((24999 : ℚ) / 250) 10000 (by norm_num) (by norm_num)]
  norm_num

theorem hrnd_B3 : rnd2 ((4 : ℚ) / 100000 * 100) = 0 := by
  rw [rnd2_eval ((4 : ℚ) / 100000 * 100) 0 (by norm_num) (by norm_num)]
  norm_num

theorem hrnd_B3' : rnd2 ((1 : ℚ) / 250) = 0 := by
  rw [rnd2_eval ((1 : ℚ) / 250) 0 (by norm_num) (by norm_num)]
  norm_num

theorem eval4_entries : entriesSorted [("A", (4 : ℚ)), ("B", 99996)] =
    [("B", 99996), ("A", 4)] := by
  norm_num [entriesSorted, insSortBy, insertB, bySizeDesc]

theorem eval4_rounded_map : (roundedData [("A", (4 : ℚ)), ("B", 99996)] 100000).map
    Item.rounded = [fin 100, fin 0] := by
  rw [roundedData_eq _ (by norm_num : (100000 : ℚ) ≠ 0), eval4_entries]
  norm_num [hrnd_A3, hrnd_A3', hrnd_B3, hrnd_B3']

theorem evalX_rounded : roundedData [("X", (1 : ℚ))] 1 =
    [⟨"X", 1, fin 100, fin 100, fin 0⟩] := by
  rw [roundedData_eq _ (by norm_num : (1 : ℚ) ≠ 0)]
  norm_num [entriesSorted, insSortBy, insertB, bySizeDesc, hrnd_100]

theorem hrnd_S7a : rnd2 ((16666 : ℚ) / 100000 * 100) = 1667 / 100 := by
  rw [rnd2_eval ((16666 : ℚ) / 100000 * 100) 1667 (by norm_num) (by norm_num)]
  norm_num

theorem hrnd_S7a' : rnd2 ((8333 : ℚ) / 500) = 1667 / 100 := by
  rw [rnd2_eval ((8333 : ℚ) / 500) 1667 (by norm_num) (by norm_num)]
  norm_num

theorem eval7_entries : entriesSorted [("A", (16666 : ℚ)), ("B", 16666), ("C", 16666),
    ("D", 16666), ("E", 16666), ("F", 16666), ("G", 4)] =
    [("A", 16666), ("B", 16666), ("C", 16666), ("D", 16666), ("E", 16666), ("F", 16666),
     ("G", 4)] := by
  norm_num [entriesSorted, insSortBy, insertB, bySizeDesc]

theorem eval7_rounded : roundedData [("A", (16666 : ℚ)), ("B", 16666), ("C", 16666),
    ("D", 16666), ("E", 16666), ("F", 16666), ("G", 4)] 100000 =
    [⟨"A", 16666, fin (8333 / 500), fin (1667 / 100), fin (-(1 / 250))⟩,
     ⟨"B", 16666, fin (8333 / 500), fin (1667 / 100), fin (-(1 / 250))⟩,
     ⟨"C", 16666, fin (8333 / 500), fin (1667 / 100), fin (-(1 / 250))⟩,
     ⟨"D", 16666, fin (8333 / 500), fin (1667 / 100), fin (-(1 / 250))⟩,
     ⟨"E", 16666, fin (8333 / 500), fin (1667 / 100), fin (-(1 / 250))⟩,
     ⟨"F", 16666, fin (8333 / 500), fin (1667 / 100), fin (-(1 / 250))⟩,
     ⟨"G", 4, fin (1 / 250), fin 0, fin (1 / 250)⟩] := by
  rw [roundedData_eq _ (by norm_num : (100000 : ℚ) ≠ 0), eval7_entries]
  norm_num [hrnd_S7a, hrnd_S7a', hrnd_B3, hrnd_B3']

theorem eval7_sumR : sumRounded [("A", (16666 : ℚ)), ("B", 16666), ("C", 16666),
    ("D", 16666), ("E", 16666), ("F", 16666), ("G", 4)] 100000 = fin (5001 / 50) := by
  rw [sumRounded, eval7_rounded]
  norm_num

theorem hrnd_S7d : rnd2 (-((1 : ℚ) / 50)) = -(1 / 50) := by
  rw [rnd2_eval (-((1 : ℚ) / 50)) (-2) (by norm_num) (by norm_num)]
  norm_num

theorem eval7_diff : difference [("A", (16666 : ℚ)), ("B", 16666), ("C", 16666),
    ("D", 16666), ("E", 16666), ("F", 16666), ("G", 4)] 100000 = fin (-(1 / 50)) := by
  rw [difference, eval7_sumR]
  norm_num [hrnd_S7d]

theorem eval7_sortedByRem : sortedByRemainder [("A", (16666 : ℚ)), ("B", 16666), ("C", 16666),
    ("D", 16666), ("E", 16666), ("F", 16666), ("G", 4)] 100000 =
    [(6, ⟨"G", 4, fin (1 / 250), fin 0, fin (1 / 250)⟩),
     (0, ⟨"A", 16666, fin (8333 / 500), fin (1667 / 100), fin (-(1 / 250))⟩),
     (1, ⟨"B", 16666, fin (8333 / 500), fin (1667 / 100), fin (-(1 / 250))⟩),
     (2, ⟨"C", 16666, fin (8333 / 500), fin (1667 / 100), fin (-(1 / 250))⟩),
     (3, ⟨"D", 16666, fin (8333 / 500), fin (1667 / 100), fin (-(1 / 250))⟩),
     (4, ⟨"E", 16666, fin (8333 / 500), fin (1667 / 100), fin (-(1 / 250))⟩),
     (5, ⟨"F", 16666, fin (8333 / 500), fin (1667 / 100), fin (-(1 / 250))⟩)] := by
  rw [sortedByRemainder, eval7_rounded]
  norm_num [List.enum, List.enumFrom, insSortBy, insertB, byRemDesc, jsLt, jsGt, jsSub, jsAdd,
    jsNeg]

theorem hrnd_neg_centi2 : rnd2 (-((1 : ℚ) / 100)) = -(1 / 100) := by
  rw [rnd2_eval (-((1 : ℚ) / 100)) (-1) (by norm_num) (by norm_num)]
  norm_num

theorem hrnd_S7e : rnd2 ((833 : ℚ) / 50) = 833 / 50 := by
  rw [rnd2_eval ((833 : ℚ) / 50) 1666 (by norm_num) (by norm_num)]
  norm_num

theorem eval7_adjusted : adjustedData [("A", (16666 : ℚ)), ("B", 16666), ("C", 16666),
    ("D", 16666), ("E", 16666), ("F", 16666), ("G", 4)] 100000 =
    [⟨"A", 16666, fin (8333 / 500), fin (833 / 50), fin (-(1 / 250))⟩,
     ⟨"B", 16666, fin (8333 / 500), fin (1667 / 100), fin (-(1 / 250))⟩,
     ⟨"C", 16666, fin (8333 / 500), fin (1667 / 100), fin (-(1 / 250))⟩,
     ⟨"D", 16666, fin (8333 / 500), fin (1667 / 100), fin (-(1 / 250))⟩,
     ⟨"E", 16666, fin (8333 / 500), fin (1667 / 100), fin (-(1 / 250))⟩,
     ⟨"F", 16666, fin (8333 / 500), fin (1667 / 100), fin (-(1 / 250))⟩,
     ⟨"G", 4, fin (1 / 250), fin (-(1 / 100)), fin (1 / 250)⟩] := by
  rw [adjustedData, eval7_diff, eval7_sortedByRem]
  norm_num [jsAbs, jsGt, jsLt, jsSign, jsMul, jsAdd, jsNeg, jsSub, adjustLoop, round2,
    hrnd_neg_centi, hrnd_S7e, hrnd_0, hrnd_neg_centi2, insSortBy, insertB, byIdxAsc]

theorem eval7_calc : calculateLanguagePercentages [("A", (16666 : ℚ)), ("B", 16666),
    ("C", 16666), ("D", 16666), ("E", 16666), ("F", 16666), ("G", 4)] 100000 =
    [("A", 16666, fin (833 / 50)), ("B", 16666, fin (1667 / 100)),
     ("C", 16666, fin (1667 / 100)), ("D", 16666, fin (1667 / 100)),
     ("E", 16666, fin (1667 / 100)), ("F", 16666, fin (1667 / 100))] := by
  rw [calculateLanguagePercentages, eval7_adjusted]
  norm_num [jsGt]

theorem eval7_sum : percentageSum [("A", (16666 : ℚ)), ("B", 16666),
    ("C", 16666), ("D", 16666), ("E", 16666), ("F", 16666), ("G", 4)] 100000 = 10001 / 100 := by
  rw [percentageSum, eval7_calc]
  norm_num [jsToQ]

theorem evalEmpty_calc (T : ℚ) : calculateLanguagePercentages [] T = [] := by
  norm_num [calculateLanguagePercentages, adjustedData, difference, sumRounded, roundedData,
    rawPercentages, entriesSorted, insSortBy, sortedByRemainder, adjustLoop, jsSub, jsAdd, jsNeg,
    round2, jsAbs, jsGt, hrnd_100, insertB, List.enum, List.enumFrom]

theorem evalZero_calc : calculateLanguagePercentages [("A", (0 : ℚ))] 0 = [] := by
  norm_num [calculateLanguagePercentages, adjustedData, difference, sumRounded, roundedData,
    rawPercentages, entriesSorted, insSortBy, sortedByRemainder, adjustLoop, jsDiv, jsMul, jsSub,
    jsAdd, jsNeg, round2, jsAbs, jsGt, insertB, List.enum, List.enumFrom]

theorem evalInf_calc : calculateLanguagePercentages [("A", (5 : ℚ))] 0 = [("A", 5, inf)] := by
  norm_num [calculateLanguagePercentages, adjustedData, difference, sumRounded, roundedData,
    rawPercentages, entriesSorted, insSortBy, sortedByRemainder, adjustLoop, jsDiv, jsMul, jsSub,
    jsAdd, jsNeg, round2, jsAbs, jsGt, jsLt, jsSign, byIdxAsc, byRemDesc, insertB, List.enum,
    List.enumFrom]

theorem jsAdd_nan_right (a : JsNum) : jsAdd a nan = nan := by
  cases a <;> rfl

theorem foldl_jsAdd_from_nan (l : List Item) :
    l.foldl (fun s it => jsAdd s it.rounded) nan = nan := by
  induction l with
  | nil => rfl
  | cons h t ih =>
      have hstep : jsAdd nan h.rounded = nan := by cases h.rounded <;> rfl
      simp only [List.foldl_cons, hstep, ih]

theorem foldl_jsAdd_all_nan (l : List Item) (hl : l ≠ [])
    (hnan : ∀ it ∈ l, it.rounded = nan) (a : JsNum) :
    l.foldl (fun s it => jsAdd s it.rounded) a = nan := by
  cases l with
  | nil => exact absurd rfl hl
  | cons h t =>
      simp only [List.foldl_cons, hnan h (List.mem_cons_self h t), jsAdd_nan_right]
      exact foldl_jsAdd_from_nan t

theorem calc_allzero (stats : List (String × ℚ)) (hz : ∀ e ∈ stats, e.2 = (0 : ℚ)) :
    calculateLanguagePercentages stats 0 = [] := by
  cases stats with
  | nil => exact evalEmpty_calc 0
  | cons x rest =>
      have hnan : ∀ it ∈ roundedData (x :: rest) 0, it.rounded = nan := by
        intro it hit
        unfold roundedData rawPercentages at hit
        rw [List.map_map] at hit
        obtain ⟨e, he, rfl⟩ := List.mem_map.mp hit
        have hez : e.2 = 0 := hz e ((insSortBy_perm bySizeDesc (x :: rest)).subset he)
        simp [Function.comp, hez, jsDiv, jsMul, round2]
      have hne : roundedData (x :: rest) 0 ≠ [] := by
        have hlen : (roundedData (x :: rest) 0).length = (x :: rest).length := by
          rw [roundedData_length, entriesSorted,
            (insSortBy_perm bySizeDesc (x :: rest)).length_eq]
        intro hcon
        rw [hcon] at hlen
        simp at hlen
      have hsum : sumRounded (x :: rest) 0 = nan := by
        rw [sumRounded]
        exact foldl_jsAdd_all_nan _ hne hnan _
      have hdiff : difference (x :: rest) 0 = nan := by
        rw [difference, hsum]
        rfl
      have hguard : jsGt (jsAbs (difference (x :: rest) 0)) (fin (1 / 100)) = false := by
        rw [hdiff]
        rfl
      have hadj : adjustedData (x :: rest) 0 = roundedData (x :: rest) 0 := by
        unfold adjustedData
        rw [hguard]
        simp
      rw [calculateLanguagePercentages, hadj, List.filter_eq_nil_iff.mpr, List.map_nil]
      intro it hit
      rw [hnan it hit]
      simp [jsGt]

theorem adjustedData_rounding (stats : List (String × ℚ)) {T : ℚ} (hT : T ≠ 0) :
    ∀ it ∈ adjustedData stats T, ∃ p : ℚ, it.percentage = fin p ∧ p = it.size / T * 100 ∧
      ∃ r : ℚ, it.rounded = fin r ∧ |r - rnd2 p| ≤ 1 / 100 := by
  intro it hit
  unfold adjustedData at hit
  by_cases hg : jsGt (jsAbs (difference stats T)) (fin (1 / 100)) = true
  · rw [hg] at hit
    simp only [if_true] at hit
    obtain ⟨x, hx, rfl⟩ := List.mem_map.mp hit
    have hxD : x ∈ adjustLoop (sortedByRemainder stats T) (difference stats T) :=
      (insSortBy_perm byIdxAsc _).subset hx
    have hdiffN : difference stats T =
        fin (((round ((100 - ((entriesSorted stats).map fun e => rnd2 (e.2 / T * 100)).sum) * 100) : ℤ) : ℚ) / 100) := by
      rw [difference, sumRounded_eq stats hT, jsSub_fin_fin, round2_fin]
      rfl
    rw [hdiffN] at hxD
    obtain ⟨y, hy, h1, h2, h3, h4, h5⟩ := adjustLoop_mem (sortedByRemainder stats T) _
      (sortedByRemainder_rounded_int stats hT) x hxD
    have hy2 : y.2 ∈ roundedData stats T :=
      snd_mem_of_mem_enum ((insSortBy_perm byRemDesc _).subset hy)
    rw [roundedData_eq stats hT] at hy2
    obtain ⟨e, he, hye⟩ := List.mem_map.mp hy2
    refine ⟨e.2 / T * 100, ?_, ?_, ?_⟩
    · rw [h4, ← hye]
    · rw [h3, ← hye]
    · rcases h5 with heq | ⟨m, hm, hpm⟩
      · refine ⟨rnd2 (e.2 / T * 100), ?_, by norm_num⟩
        rw [heq, ← hye]
      · have hmr : (m : ℚ) / 100 = rnd2 (e.2 / T * 100) := by
          rw [← hye] at hm
          have hm2 : fin (rnd2 (e.2 / T * 100)) = fin ((m : ℚ) / 100) := hm
          exact ((JsNum.fin.injEq _ _).mp hm2).symm
        rcases hpm with h | h
        · refine ⟨((m + 1 : ℤ) : ℚ) / 100, h, ?_⟩
          rw [← hmr]
          have h7 : ((m + 1 : ℤ) : ℚ) / 100 - (m : ℚ) / 100 = 1 / 100 := by
            push_cast
            ring
          rw [h7, abs_of_pos (by norm_num : (0 : ℚ) < 1 / 100)]
        · refine ⟨((m - 1 : ℤ) : ℚ) / 100, h, ?_⟩
          rw [← hmr]
          have h7 : ((m - 1 : ℤ) : ℚ) / 100 - (m : ℚ) / 100 = -(1 / 100) := by
            push_cast
            ring
          rw [h7, abs_neg, abs_of_pos (by norm_num : (0 : ℚ) < 1 / 100)]
  · rw [Bool.not_eq_true] at hg
    rw [hg] at hit
    simp only [Bool.false_eq_true, if_false] at hit
    rw [roundedData_eq stats hT] at hit
    obtain ⟨e, he, rfl⟩ := List.mem_map.mp hit
    exact ⟨e.2 / T * 100, rfl, rfl, rnd2 (e.2 / T * 100), rfl, by norm_num⟩

theorem bySizeDesc_asymm (a b : String × ℚ) : bySizeDesc a b = true → bySizeDesc b a = false := by
  simp only [bySizeDesc, decide_eq_true_eq, decide_eq_false_iff_not, not_lt]
  intro h
  linarith

theorem bySizeDesc_trans (a b c : String × ℚ) :
    bySizeDesc a b = true → bySizeDesc b c = true → bySizeDesc a c = true := by
  simp only [bySizeDesc, decide_eq_true_eq]
  intro h1 h2
  linarith

theorem entriesSorted_pairwise (stats : List (String × ℚ)) :
    (entriesSorted stats).Pairwise fun a b => b.2 ≤ a.2 := by
  have h := insSortBy_pairwise bySizeDesc_asymm bySizeDesc_trans stats
  refine h.imp fun hab => ?_
  simp only [bySizeDesc, decide_eq_false_iff_not, not_lt] at hab
  exact hab

theorem entriesSorted_filter (stats : List (String × ℚ)) (s : ℚ) :
    (entriesSorted stats).filter (fun e => decide (e.2 = s)) =
      stats.filter fun e => decide (e.2 = s) := by
  have hb : bySizeDesc = fun u v : String × ℚ => decide (Prod.snd v < Prod.snd u) := rfl
  rw [entriesSorted, hb]
  exact insSortBy_filter_key Prod.snd s stats

theorem adjustedData_pairwise (stats : List (String × ℚ)) (T : ℚ) :
    (adjustedData stats T).Pairwise fun a b => b.size ≤ a.size := by
  have hproj : (adjustedData stats T).map (fun it => (it.language, it.size)) =
      entriesSorted stats := by
    rw [adjustedData_proj, roundedData_proj]
  have hpair : ((adjustedData stats T).map fun it => (it.language, it.size)).Pairwise
      (fun a b : String × ℚ => b.2 ≤ a.2) := by
    rw [hproj]
    exact entriesSorted_pairwise stats
  rw [List.pairwise_map] at hpair
  exact hpair

/-- C6: the returned sequence is sorted by descending raw size, and for
each fixed size the languages appear in their original input order (as a
sublist, since entries can be dropped by the positivity filter). -/
theorem C6_ordering (stats : List (String × ℚ)) (T : ℚ) :
    (calculateLanguagePercentages stats T).Pairwise
      (fun a b => b.2.1 ≤ a.2.1) ∧
    ∀ s : ℚ, (((calculateLanguagePercentages stats T).filter fun e => decide (e.2.1 = s)).map
      Prod.fst).Sublist ((stats.filter fun e => decide (e.2 = s)).map Prod.fst) := by
  constructor
  · rw [calculateLanguagePercentages, List.pairwise_map]
    exact (adjustedData_pairwise stats T).filter _
  · intro s
    have hstep1 : ((calculateLanguagePercentages stats T).filter fun e => decide (e.2.1 = s)) =
        ((((adjustedData stats T).filter fun it => jsGt it.rounded (fin 0)).filter
            fun it => decide (it.size = s)).map fun it => (it.language, it.size, it.rounded)) := by
      rw [calculateLanguagePercentages, List.filter_map]
      rfl
    have hsub0 : ((((adjustedData stats T).filter fun it => jsGt it.rounded (fin 0)).filter
        fun it => decide (it.size = s))).Sublist
        ((adjustedData stats T).filter fun it => decide (it.size = s)) :=
      (List.filter_sublist (adjustedData stats T)).filter _
    have hlang : (((adjustedData stats T).filter fun it => decide (it.size = s)).map
        fun it => it.language) = ((stats.filter fun e => decide (e.2 = s)).map Prod.fst) := by
      have hmf : (((adjustedData stats T).map fun it => (it.language, it.size)).filter
          fun pr => decide (pr.2 = s)) =
          (((adjustedData stats T).filter fun it => decide (it.size = s)).map
            fun it => (it.language, it.size)) := by
        rw [List.filter_map]
        rfl
      have h2 := congrArg (List.map (fun pr : String × ℚ => pr.1)) hmf
      rw [List.map_map] at h2
      have h3 : ((fun pr : String × ℚ => pr.1) ∘ fun it : Item => (it.language, it.size)) =
          fun it : Item => it.language := rfl
      rw [h3] at h2
      rw [← h2, adjustedData_proj, roundedData_proj, entriesSorted_filter]
    rw [hstep1, List.map_map]
    have h4 : ((fun e : String × ℚ × JsNum => e.1) ∘
        fun it : Item => (it.language, it.size, it.rounded)) = fun it : Item => it.language := rfl
    rw [h4, ← hlang]
    exact hsub0.map _

/-! ### The claims -/

/-- C1, counterexample: for {A: 1, B: 1, C: 1} with totalSize 3 the returned
percentages (33.33 three times) sum to 99.99, not exactly 100.00. -/
theorem C1_counterexample :
    percentageSum [("A", (1 : ℚ)), ("B", 1), ("C", 1)] 3 = 9999 / 100 ∧
    ((9999 : ℚ) / 100) ≠ 100 :=
  ⟨eval3_sum, by norm_num⟩

/-- C1, witness at {A: 1, B: 1, C: 1}, totalSize 3. -/
theorem C1_sum_within_witness :
    (∀ it ∈ adjustedData [("A", (1 : ℚ)), ("B", 1), ("C", 1)] 3,
       jsGt it.rounded (fin 0) = true) ∧
    |percentageSum [("A", (1 : ℚ)), ("B", 1), ("C", 1)] 3 - 100| ≤ 1 / 100 := by
  have h4 : ∀ it ∈ adjustedData [("A", (1 : ℚ)), ("B", 1), ("C", 1)] 3,
      jsGt it.rounded (fin 0) = true := by
    rw [eval3_adjusted]
    intro it hit
    simp only [List.mem_cons, List.not_mem_nil, or_false] at hit
    rcases hit with rfl | rfl | rfl <;> norm_num [jsGt]
  refine ⟨h4, C1_sum_within _ 3 (by simp) ?_ (by norm_num) h4⟩
  intro e he
  simp only [List.mem_cons, List.not_mem_nil, or_false] at he
  rcases he with rfl | rfl | rfl <;> norm_num

/-- C2, counterexample: on {"A": 999999, "B": 1} the entry B (rawSize 1 > 0)
receives rounded percentage 0.00 and is dropped; the output is
[("A", 999999, 100.00)], not B at 0.01 and A at 99.99. -/
theorem C2_counterexample :
    calculateLanguagePercentages [("A", (999999 : ℚ)), ("B", 1)] 1000000 =
      [("A", 999999, fin 100)] ∧
    ∀ e ∈ calculateLanguagePercentages [("A", (999999 : ℚ)), ("B", 1)] 1000000, e.1 ≠ "B" := by
  refine ⟨eval2_calc, ?_⟩
  rw [eval2_calc]
  intro e he
  rw [List.mem_singleton] at he
  rw [he]
  decide

/-- C2, amended: every entry of the returned sequence has a percentage that
compares greater than 0 (the final filter guarantees this), but an entry
with positive rawSize can be dropped from the output entirely. -/
theorem C2_positive :
    ∀ (stats : List (String × ℚ)) (T : ℚ) (e : String × ℚ × JsNum),
      e ∈ calculateLanguagePercentages stats T → jsGt e.2.2 (fin 0) = true := by
  intro stats T e he
  rw [calculateLanguagePercentages] at he
  obtain ⟨it, hit, rfl⟩ := List.mem_map.mp he
  exact (List.mem_filter.mp hit).2

/-- C2, witness at {"A": 999999, "B": 1}. -/
theorem C2_positive_witness :
    (("A", (999999 : ℚ), fin 100) ∈
      calculateLanguagePercentages [("A", (999999 : ℚ)), ("B", 1)] 1000000) ∧
    jsGt ((("A", (999999 : ℚ), fin 100) : String × ℚ × JsNum)).2.2 (fin 0) = true := by
  have hm : ("A", (999999 : ℚ), fin 100) ∈
      calculateLanguagePercentages [("A", (999999 : ℚ)), ("B", 1)] 1000000 := by
    rw [eval2_calc]
    exact List.mem_singleton.mpr rfl
  exact ⟨hm, C2_positive _ _ _ hm⟩

/-- C3, counterexample: for {A: 4, B: 99996} (totalSize 100000) the entry A
has raw percentage 0.004; its initial rounded value is 0.00, while
ceiling-to-2-decimals would give 0.01, so the initial rounding is not the
ceiling. -/
theorem C3_counterexample :
    (roundedData [("A", (4 : ℚ)), ("B", 99996)] 100000).map Item.rounded = [fin 100, fin 0] ∧
    specCeil2 ((4 : ℚ) / 100000 * 100) = 1 / 100 ∧ (fin 0 : JsNum) ≠ fin (1 / 100) := by
  refine ⟨eval4_rounded_map, ?_, ?_⟩
  · rw [specCeil2_eval ((4 : ℚ) / 100000 * 100) 1 (by norm_num) (by norm_num)]
    norm_num
  · intro hcon
    have h := (JsNum.fin.injEq _ _).mp hcon
    norm_num at h

/-- C3, amended: the initial rounded value is the nearest-2-decimals
rounding `round(rawPercentage * 100) / 100` of the raw percentage; it lies
within 0.005 of the true share but can fall strictly below it. -/
theorem C3_nearest (stats : List (String × ℚ)) (T : ℚ) (hT : T ≠ 0) :
    ∀ it ∈ roundedData stats T, ∃ q : ℚ, it.percentage = fin q ∧ it.rounded = fin (rnd2 q) ∧
      |rnd2 q - q| ≤ 1 / 200 := by
  intro it hit
  rw [roundedData_eq stats hT] at hit
  obtain ⟨e, he, rfl⟩ := List.mem_map.mp hit
  exact ⟨e.2 / T * 100, rfl, rfl, abs_rnd2_sub _⟩

/-- C3, witness at {"X": 1}, totalSize 1. -/
theorem C3_nearest_witness :
    ∃ q : ℚ, (⟨"X", 1, fin 100, fin 100, fin 0⟩ : Item).percentage = fin q ∧
      (⟨"X", 1, fin 100, fin 100, fin 0⟩ : Item).rounded = fin (rnd2 q) ∧
      |rnd2 q - q| ≤ 1 / 200 := by
  have hm : (⟨"X", 1, fin 100, fin 100, fin 0⟩ : Item) ∈ roundedData [("X", (1 : ℚ))] 1 := by
    rw [evalX_rounded]
    exact List.mem_singleton.mpr rfl
  exact C3_nearest _ 1 (by norm_num) _ hm

/-- C4, counterexample: on {"A": 0} (total size 0) the function returns a
result — the empty sequence — rather than signalling any error condition;
no EmptyDistribution signal exists anywhere in the function. -/
theorem C4_counterexample : calculateLanguagePercentages [("A", (0 : ℚ))] 0 = [] :=
  evalZero_calc

/-- C4, amended: the normalizer signals no error condition: on the empty
mapping and on the all-zero mapping {"A": 0} it simply returns the empty
sequence. -/
theorem C4_no_error : calculateLanguagePercentages [] 0 = [] ∧
    calculateLanguagePercentages [("A", (0 : ℚ))] 0 = [] :=
  ⟨evalEmpty_calc 0, evalZero_calc⟩

/-- C5, counterexample: for six entries of size 16666 and one of size 4
(totalSize 100000), the first entry processed by the adjustment pass is the
size-4 entry (largest remainder, smallest share — not the largest share),
it is reduced from 0.00 to -0.01 (below 0.01, not skipped), and it is
dropped from the output. -/
theorem C5_counterexample :
    ((sortedByRemainder [("A", (16666 : ℚ)), ("B", 16666), ("C", 16666), ("D", 16666),
        ("E", 16666), ("F", 16666), ("G", 4)] 100000).map fun x => x.2.size) =
      [4, 16666, 16666, 16666, 16666, 16666, 16666] ∧
    (∃ it ∈ adjustedData [("A", (16666 : ℚ)), ("B", 16666), ("C", 16666), ("D", 16666),
        ("E", 16666), ("F", 16666), ("G", 4)] 100000, it.rounded = fin (-(1 / 100))) ∧
    (calculateLanguagePercentages [("A", (16666 : ℚ)), ("B", 16666), ("C", 16666), ("D", 16666),
        ("E", 16666), ("F", 16666), ("G", 4)] 100000).map Prod.fst =
      ["A", "B", "C", "D", "E", "F"] := by
  refine ⟨?_, ?_, ?_⟩
  · rw [eval7_sortedByRem]
    norm_num
  · rw [eval7_adjusted]
    refine ⟨⟨"G", 4, fin (1 / 250), fin (-(1 / 100)), fin (1 / 250)⟩, ?_, rfl⟩
    simp
  · rw [eval7_calc]
    rfl

/-- C5, amended: the adjustment pass processes entries in order of
descending rounding remainder (ties keeping their order in the
size-descending list), and a subtraction has no 0.01 floor: an entry at
0.00 can be driven to -0.01 and is then removed by the positivity filter. -/
theorem C5_adjust_order :
    (∀ (stats : List (String × ℚ)) (T : ℚ), (sortedByRemainder stats T).Pairwise
      fun a b => byRemDesc b a = false) ∧
    (∃ it ∈ adjustedData [("A", (16666 : ℚ)), ("B", 16666), ("C", 16666), ("D", 16666),
        ("E", 16666), ("F", 16666), ("G", 4)] 100000, it.rounded = fin (-(1 / 100))) ∧
    (∀ e ∈ calculateLanguagePercentages [("A", (16666 : ℚ)), ("B", 16666), ("C", 16666),
        ("D", 16666), ("E", 16666), ("F", 16666), ("G", 4)] 100000, e.1 ≠ "G") := by
  refine ⟨?_, ?_, ?_⟩
  · intro stats T
    exact insSortBy_pairwise byRemDesc_asymm byRemDesc_trans _
  · rw [eval7_adjusted]
    refine ⟨⟨"G", 4, fin (1 / 250), fin (-(1 / 100)), fin (1 / 250)⟩, ?_, rfl⟩
    simp
  · rw [eval7_calc]
    intro e he
    simp only [List.mem_cons, List.not_mem_nil, or_false] at he
    rcases he with rfl | rfl | rfl | rfl | rfl | rfl <;> decide

/-- C5, witness: the first returned entry of the seven-language run is not
the dropped language G. -/
theorem C5_adjust_order_witness :
    (("A", (16666 : ℚ), fin (833 / 50)) ∈
      calculateLanguagePercentages [("A", (16666 : ℚ)), ("B", 16666), ("C", 16666), ("D", 16666),
        ("E", 16666), ("F", 16666), ("G", 4)] 100000) ∧
    ((("A", (16666 : ℚ), fin (833 / 50)) : String × ℚ × JsNum)).1 ≠ "G" := by
  have hm : ("A", (16666 : ℚ), fin (833 / 50)) ∈
      calculateLanguagePercentages [("A", (16666 : ℚ)), ("B", 16666), ("C", 16666), ("D", 16666),
        ("E", 16666), ("F", 16666), ("G", 4)] 100000 := by
    rw [eval7_calc]
    exact List.mem_cons_self _ _
  exact ⟨hm, C5_adjust_order.2.2 _ hm⟩

/-- C7: the weighting pre-step of `fetchTopLanguages` computes
`size ^ sizeWeight * count ^ countWeight`; at the source's default
exponents (1, 0) it leaves every size unchanged; at exponents (1, 1) a
language with rawSize 10 in 2 repositories gets weighted size 20; and
exactly the entries with positive weighted size survive the filter. -/
theorem C7_weighting :
    (∀ stats : List (String × ℚ × ℕ), applyWeights stats 1 0 =
      (stats.map fun e => (e.1, e.2.1)).filter fun x => decide (0 < x.2)) ∧
    applyWeights [("L", 10, 2)] 1 1 = [("L", 20)] ∧
    (∀ (stats : List (String × ℚ × ℕ)) (sw cw : ℕ) (x : String × ℚ),
      x ∈ applyWeights stats sw cw → 0 < x.2) ∧
    (∀ (stats : List (String × ℚ × ℕ)) (sw cw : ℕ) (e : String × ℚ × ℕ), e ∈ stats →
      0 < e.2.1 ^ sw * ((e.2.2 : ℚ)) ^ cw →
      (e.1, e.2.1 ^ sw * ((e.2.2 : ℚ)) ^ cw) ∈ applyWeights stats sw cw) := by
  refine ⟨?_, ?_, ?_, ?_⟩
  · intro stats
    simp [applyWeights]
  · norm_num [applyWeights]
  · intro stats sw cw x hx
    rw [applyWeights] at hx
    have h := (List.mem_filter.mp hx).2
    simpa using h
  · intro stats sw cw e he hpos
    rw [applyWeights]
    refine List.mem_filter.mpr ⟨?_, by simpa using hpos⟩
    exact List.mem_map.mpr ⟨e, he, rfl⟩

/-- C7, witness at one language of size 10 with repo count 2. -/
theorem C7_weighting_witness :
    (("L", (20 : ℚ)) ∈ applyWeights [("L", 10, 2)] 1 1) ∧
    (0 : ℚ) < ((("L", (20 : ℚ)) : String × ℚ)).2 := by
  have hm : ("L", (20 : ℚ)) ∈ applyWeights [("L", 10, 2)] 1 1 := by
    rw [C7_weighting.2.1]
    exact List.mem_singleton.mpr rfl
  exact ⟨hm, C7_weighting.2.2.1 _ 1 1 _ hm⟩

/-- C8: `calculateLanguagePercentages` is deterministic — two runs on equal
input mappings and equal totals return identical sequences. -/
theorem C8_deterministic (s1 s2 : List (String × ℚ)) (T1 T2 : ℚ) (h1 : s1 = s2)
    (h2 : T1 = T2) :
    calculateLanguagePercentages s1 T1 = calculateLanguagePercentages s2 T2 := by
  rw [h1, h2]

/-- C8, witness. -/
theorem C8_deterministic_witness :
    calculateLanguagePercentages [("A", (1 : ℚ))] 1 =
      calculateLanguagePercentages [("A", (1 : ℚ))] 1 :=
  C8_deterministic _ _ _ _ rfl rfl

/-- C9: every returned percentage is a finite value within 0.01 of the
nearest-2-decimals rounding of that entry's true share
(rawSize / totalSize * 100): during the correction pass each entry is
modified at most once, by ±0.01. -/
theorem C9_rounding_distance (stats : List (String × ℚ)) (T : ℚ) (hT : T ≠ 0) :
    ∀ e ∈ calculateLanguagePercentages stats T,
      ∃ p : ℚ, e.2.2 = fin p ∧ |p - rnd2 (e.2.1 / T * 100)| ≤ 1 / 100 := by
  intro e he
  rw [calculateLanguagePercentages] at he
  obtain ⟨it, hit, rfl⟩ := List.mem_map.mp he
  have hit2 : it ∈ adjustedData stats T := List.mem_of_mem_filter hit
  obtain ⟨p, hp, hps, r, hr, hb⟩ := adjustedData_rounding stats hT it hit2
  refine ⟨r, hr, ?_⟩
  have h1 : ((it.language, it.size, it.rounded) : String × ℚ × JsNum).2.1 = it.size := rfl
  rw [h1, ← hps]
  exact hb

/-- C9, witness at {A: 1, B: 1, C: 1}, totalSize 3. -/
theorem C9_rounding_distance_witness :
    ∃ p : ℚ, (("A", (1 : ℚ), fin (3333 / 100)) : String × ℚ × JsNum).2.2 = fin p ∧
      |p - rnd2 ((("A", (1 : ℚ), fin (3333 / 100)) : String × ℚ × JsNum).2.1 / 3 * 100)| ≤
        1 / 100 := by
  have hm : ("A", (1 : ℚ), fin (3333 / 100)) ∈
      calculateLanguagePercentages [("A", (1 : ℚ)), ("B", 1), ("C", 1)] 3 := by
    rw [eval3_calc]
    exact List.mem_cons_self _ _
  exact C9_rounding_distance _ 3 (by norm_num) _ hm

/-- C10, counterexample: with totalSize 0 and a positive size the
percentage is Infinity, the entry passes the `> 0` filter, and the result
is not the empty list. -/
theorem C10_counterexample :
    calculateLanguagePercentages [("A", (5 : ℚ))] 0 = [("A", 5, inf)] ∧
    calculateLanguagePercentages [("A", (5 : ℚ))] 0 ≠ [] := by
  refine ⟨evalInf_calc, ?_⟩
  rw [evalInf_calc]
  simp

/-- C10, amended: the function is total and never signals an error; it
returns the empty list on the empty mapping for any totalSize, and on any
mapping whose sizes are all 0 with totalSize 0 (every computed percentage
is NaN and fails the `> 0` filter).  When totalSize is 0 but some size is
positive, the entry is returned with an Infinity percentage instead. -/
theorem C10_empty_cases :
    (∀ T : ℚ, calculateLanguagePercentages [] T = []) ∧
    ∀ stats : List (String × ℚ), (∀ e ∈ stats, e.2 = 0) →
      calculateLanguagePercentages stats 0 = [] :=
  ⟨evalEmpty_calc, fun stats hz => calc_allzero stats hz⟩

/-- C10, witness at {"B": 0}. -/
theorem C10_empty_cases_witness :
    (∀ e ∈ [("B", (0 : ℚ))], e.2 = 0) ∧
    calculateLanguagePercentages [("B", (0 : ℚ))] 0 = [] := by
  have hz : ∀ e ∈ [("B", (0 : ℚ))], e.2 = 0 := by
    intro e he
    rw [List.mem_singleton] at he
    rw [he]
  exact ⟨hz, C10_empty_cases.2 _ hz⟩

end SimpleLangStats
